import Mathlib

/-!
Verification development for the Lawgpt repository: a shallow embedding of
the data-pipeline functions (`rag_law_pipeline.py`, `rag_case_pipeline.py`)
and of the chat workflow (`graph.py`, `agent.py`, `custom_llm.py`), together
with theorems settling the specification claims about them.

Conventions of the embedding:
* Python strings are modelled as `List Char` (`Text`), so `len` is
  `List.length` and f-string interpolation is `++`.
* External I/O (file reads, the embedding service, the Qdrant client, the
  outbound HTTP call) is passed in as oracle functions; a Python exception
  raised by an external call is an `Except.error` value of the oracle, and
  a `try/except` block of the source is a `match` on that value.
* Each pipeline entry point returns, besides its Python boolean result, the
  trace of `upload_points` calls it performed (the batches of points given
  to the Qdrant client, in order), so that claims about what was uploaded
  are statable.
-/

namespace Lawgpt

/-- Python strings, modelled as their character lists. -/
abbrev Text := List Char

/-- Coerce a Lean string literal to the `Text` model. -/
def str (s : String) : Text := s.data

/-- Embedding vectors; the component type is irrelevant to every claim. -/
abbrev Vec := List Int

/-! ## Law data model (`rag_law_pipeline.py`) -/

/-- One law record of the ingestion JSON: `part_section` and `law_text`
(spec §3 LawRecord; the `.get(..., '')` defaults of the source make both
fields effectively total strings). -/
structure LawRef where
  part_section : Text
  law_text : Text
deriving DecidableEq, Repr

/-- One chunk dictionary produced by `_create_law_chunks`. -/
structure ChunkData where
  content : Text
  part_section : Text
  chunk_index : Nat
  total_chunks : Nat
  chunk_content : Text
deriving DecidableEq, Repr

/-- Modelled from the spec: the repository delegates splitting of long law
texts to the external `RecursiveCharacterTextSplitter` library class
(configured in `rag_law_pipeline.py` with `chunk_size=1000`,
`chunk_overlap=100`, `length_function=len`), whose code is not part of the
repository.  Following spec §4.1, it is modelled as deterministic windows
of at most 1000 characters advancing by 900 characters, so consecutive
chunks share a 100-character overlap region and every chunk is at or under
the target size. -/
def split_text (s : Text) : List Text :=
  if s.length ≤ 1000 then [s]
  else s.take 1000 :: split_text (s.drop 900)
termination_by s.length
decreasing_by simp_all; omega

/-- The chunk dictionary appended per loop iteration in the long-text branch
of `_create_law_chunks` (`ic` is one `enumerate(chunks)` pair, `n` is
`len(chunks)`). -/
def long_chunk (part_section : Text) (n : Nat) (ic : Nat × Text) : ChunkData :=
  { content := str "Part Section: " ++ part_section ++ str "\nLaw Text (Chunk "
      ++ str (toString (ic.1 + 1)) ++ str "/" ++ str (toString n)
      ++ str "): " ++ ic.2,
    part_section := part_section,
    chunk_index := ic.1,
    total_chunks := n,
    chunk_content := ic.2 }

/-- `LawRAGPipeline._create_law_chunks`: texts of at most 1000 characters
become a single chunk; longer texts are split and each chunk is paired with
its ordinal, the total count, and a self-describing content string. -/
def _create_law_chunks (law_ref : LawRef) : List ChunkData :=
  if law_ref.law_text.length ≤ 1000 then
    [{ content := str "Part Section: " ++ law_ref.part_section ++ str "\nLaw Text: "
          ++ law_ref.law_text,
       part_section := law_ref.part_section,
       chunk_index := 0,
       total_chunks := 1,
       chunk_content := law_ref.law_text }]
  else
    let chunks := split_text law_ref.law_text
    chunks.enum.map (long_chunk law_ref.part_section chunks.length)

/-! ## Law ingestion (`add_law_references`, `_add_law_file_with_custom_ids`)

The embedding service and the Qdrant client are oracles; `Except.error`
models a raised exception. -/

/-- The metadata payload built for each law chunk point. -/
structure LawPayload where
  part_section : Text
  law_text : Text
  chunk_content : Text
  chunk_index : Nat
  total_chunks : Nat
  is_chunked : Bool
deriving DecidableEq, Repr

/-- One Qdrant `PointStruct` of the law collection. -/
structure LawPoint where
  id : Nat
  vector : Vec
  payload : LawPayload
deriving DecidableEq, Repr

/-- The payload dictionary literal of the source, shared verbatim by
`add_law_references` and `_add_law_file_with_custom_ids`. -/
def law_payload (law_text : Text) (cd : ChunkData) : LawPayload :=
  { part_section := cd.part_section,
    law_text := law_text,
    chunk_content := cd.chunk_content,
    chunk_index := cd.chunk_index,
    total_chunks := cd.total_chunks,
    is_chunked := cd.total_chunks > 1 }

/-- Python `range(start, stop, step)` for a non-negative start and a
positive step (a zero step raises in Python and is handled at the call
sites): the `⌈(stop-start)/step⌉` values `start, start+step, ...` below
`stop`.  `range_step_cons` and `range_step_nil` below recover the
recursive reading. -/
def range_step (start stop step : Nat) : List Nat :=
  if 0 < step then (List.range ((stop - start + step - 1) / step)).map fun i => start + step * i
  else []

/-- The inner chunk loop of `add_law_references` (no per-chunk `except`):
each chunk is embedded and becomes a point with the next consecutive id; a
raised embedding exception propagates. -/
def embed_chunks (embed : Text → Except Unit Vec) (law_text : Text) :
    Nat → List ChunkData → Except Unit (List LawPoint)
  | _, [] => .ok []
  | pid, cd :: rest =>
    match embed cd.content with
    | .error e => .error e
    | .ok v =>
      match embed_chunks embed law_text (pid + 1) rest with
      | .error e => .error e
      | .ok pts => .ok ({ id := pid, vector := v, payload := law_payload law_text cd } :: pts)

/-- The record loop of one `add_law_references` batch: chunk each record
and embed its chunks; ids keep incrementing across records. -/
def embed_law_batch (embed : Text → Except Unit Vec) :
    Nat → List LawRef → Except Unit (List LawPoint)
  | _, [] => .ok []
  | pid, r :: rs =>
    let chunks := _create_law_chunks r
    match embed_chunks embed r.law_text pid chunks with
    | .error e => .error e
    | .ok pts =>
      match embed_law_batch embed (pid + chunks.length) rs with
      | .error e => .error e
      | .ok pts2 => .ok (pts ++ pts2)

/-- The batch loop of `add_law_references`: per batch, `current_point_id`
is reset to `batch_start`, the batch is embedded and uploaded; any raised
exception reaches the outer `except` and the call returns `False`,
keeping the uploads already performed. -/
def run_law_batches (embed : Text → Except Unit Vec)
    (upload : List LawPoint → Except Unit Unit) (law_data : List LawRef) (batch_size : Nat) :
    List Nat → Bool × List (List LawPoint)
  | [] => (true, [])
  | b :: rest =>
    match embed_law_batch embed b ((law_data.drop b).take batch_size) with
    | .error _ => (false, [])
    | .ok points =>
      match upload points with
      | .error _ => (false, [])
      | .ok _ =>
        let r := run_law_batches embed upload law_data batch_size rest
        (r.1, points :: r.2)

/-- `if start_index < 0: start_index = 0` of the source. -/
def norm_start (start_index : Int) : Nat :=
  if start_index < 0 then 0 else start_index.toNat

/-- `LawRAGPipeline.add_law_references`: reads the file, clamps
`start_index`, returns success early when `start_index` is at or beyond
the record count, then processes batches; the result carries the Python
boolean and the trace of `upload_points` calls. -/
def add_law_references (read_file : Except Unit (List LawRef))
    (embed : Text → Except Unit Vec) (upload : List LawPoint → Except Unit Unit)
    (batch_size : Nat) (start_index : Int) : Bool × List (List LawPoint) :=
  match read_file with
  | .error _ => (false, [])
  | .ok law_data =>
    let si := norm_start start_index
    if law_data.length ≤ si then (true, [])
    else if batch_size = 0 then (false, [])
    else run_law_batches embed upload law_data batch_size
      (range_step si law_data.length batch_size)

/-- The guarded chunk loop of `_add_law_file_with_custom_ids`: a failing
chunk embedding is caught, `skipped_count` is incremented and the loop
continues; `current_point_id` advances only on success.  Returns the
points, the next point id and the number of skipped chunks. -/
def embed_chunks_skip (embed : Text → Except Unit Vec) (law_text : Text) :
    Nat → List ChunkData → List LawPoint × Nat × Nat
  | pid, [] => ([], pid, 0)
  | pid, cd :: rest =>
    match embed cd.content with
    | .error _ =>
      let r := embed_chunks_skip embed law_text pid rest
      (r.1, r.2.1, r.2.2 + 1)
    | .ok v =>
      let r := embed_chunks_skip embed law_text (pid + 1) rest
      ({ id := pid, vector := v, payload := law_payload law_text cd } :: r.1, r.2.1, r.2.2)

/-- The guarded record loop of one `_add_law_file_with_custom_ids` batch
(the per-record `except` of the source can only fire on malformed records,
which the typed model excludes; per-chunk failures are handled by
`embed_chunks_skip`). -/
def embed_law_batch_skip (embed : Text → Except Unit Vec) :
    Nat → List LawRef → List LawPoint × Nat × Nat
  | pid, [] => ([], pid, 0)
  | pid, r :: rs =>
    let c := embed_chunks_skip embed r.law_text pid (_create_law_chunks r)
    let c2 := embed_law_batch_skip embed c.2.1 rs
    (c.1 ++ c2.1, c2.2.1, c.2.2 + c2.2.2)

/-- The batch loop of `_add_law_file_with_custom_ids`: per batch,
`current_point_id = start_point_id + batch_start`; the batch is uploaded
only when it produced points (`if points:`); a failing upload aborts the
whole call with `False`.  Besides the boolean and the upload trace, the
result records each batch's `skipped_count`. -/
def run_law_batches_skip (embed : Text → Except Unit Vec)
    (upload : List LawPoint → Except Unit Unit) (law_data : List LawRef)
    (batch_size start_point_id : Nat) :
    List Nat → Bool × List (List LawPoint) × List Nat
  | [] => (true, [], [])
  | b :: rest =>
    let c := embed_law_batch_skip embed (start_point_id + b) ((law_data.drop b).take batch_size)
    if c.1.isEmpty then
      let r := run_law_batches_skip embed upload law_data batch_size start_point_id rest
      (r.1, r.2.1, c.2.2 :: r.2.2)
    else
      match upload c.1 with
      | .error _ => (false, [], [c.2.2])
      | .ok _ =>
        let r := run_law_batches_skip embed upload law_data batch_size start_point_id rest
        (r.1, c.1 :: r.2.1, c.2.2 :: r.2.2)

/-- `LawRAGPipeline._add_law_file_with_custom_ids`: the per-file worker of
the multi-file ingestion path; batches always start at record 0 and point
ids start at `start_point_id`. -/
def _add_law_file_with_custom_ids (read_file : Except Unit (List LawRef))
    (embed : Text → Except Unit Vec) (upload : List LawPoint → Except Unit Unit)
    (batch_size start_point_id : Nat) : Bool × List (List LawPoint) × List Nat :=
  match read_file with
  | .error _ => (false, [], [])
  | .ok law_data =>
    if batch_size = 0 then (false, [], [])
    else run_law_batches_skip embed upload law_data batch_size start_point_id
      (range_step 0 law_data.length batch_size)

/-- Whether embedding this chunk's content raises (the failure the
per-chunk `except` of `_add_law_file_with_custom_ids` catches). -/
def chunk_fails (embed : Text → Except Unit Vec) (cd : ChunkData) : Bool :=
  match embed cd.content with
  | .error _ => true
  | .ok _ => false

/-- How many of a record's chunks fail to embed. -/
def record_fail_count (embed : Text → Except Unit Vec) (r : LawRef) : Nat :=
  (_create_law_chunks r).countP (chunk_fails embed)

/-- How many of a record's chunks embed successfully. -/
def record_ok_count (embed : Text → Except Unit Vec) (r : LawRef) : Nat :=
  (_create_law_chunks r).countP fun cd => !chunk_fails embed cd

/-- Total failing chunks over a whole law file. -/
def file_fail_count (embed : Text → Except Unit Vec) (data : List LawRef) : Nat :=
  (data.map (record_fail_count embed)).sum

/-- Total successfully embedded chunks over a whole law file. -/
def file_ok_count (embed : Text → Except Unit Vec) (data : List LawRef) : Nat :=
  (data.map (record_ok_count embed)).sum

/-- The number of chunks a record yields. -/
def record_chunks (r : LawRef) : Nat :=
  (_create_law_chunks r).length

/-- The record slice `law_data[batch_start:batch_start+batch_size]` of one
batch. -/
def law_batch (law_data : List LawRef) (batch_size b : Nat) : List LawRef :=
  (law_data.drop b).take batch_size

/-- Total chunks produced by one batch of records. -/
def batch_chunks (law_data : List LawRef) (batch_size b : Nat) : Nat :=
  ((law_batch law_data batch_size b).map record_chunks).sum

/-- Every record that belongs to a batch other than the final one of an
`add_law_references` run (batch starts `range_step si total bs`) yields
exactly one chunk.  This is precisely the condition under which the point
ids assigned by `add_law_references` stay pairwise distinct (claim C9). -/
def single_chunk_before_final (law_data : List LawRef) (batch_size si : Nat) : Prop :=
  ∀ b ∈ (range_step si law_data.length batch_size).dropLast,
    ∀ r ∈ law_batch law_data batch_size b, record_chunks r = 1

/-! ## Case ingestion (`rag_case_pipeline.py`) -/

/-- One legal-case record of the ingestion JSON (six string fields, all
read with `.get(..., '')` defaults). -/
structure CaseRec where
  case_title : Text
  division : Text
  law_category : Text
  law_act : Text
  reference : Text
  case_details : Text
deriving DecidableEq, Repr

/-- The metadata payload of a case point. -/
structure CasePayload where
  case_title : Text
  division : Text
  law_category : Text
  law_act : Text
  reference : Text
  case_details : Text
deriving DecidableEq, Repr

/-- One Qdrant `PointStruct` of the case collection. -/
structure CasePoint where
  id : Nat
  vector : Vec
  payload : CasePayload
deriving DecidableEq, Repr

/-- `CaseRAGPipeline._create_case_content`: the field-labelled,
newline-joined embedding-input string. -/
def _create_case_content (c : CaseRec) : Text :=
  str "Case Title: " ++ c.case_title
    ++ str "\nDivision: " ++ c.division
    ++ str "\nLaw Category: " ++ c.law_category
    ++ str "\nLaw Act: " ++ c.law_act
    ++ str "\nReference: " ++ c.reference
    ++ str "\nCase Details: " ++ c.case_details

/-- The record loop of one `add_cases` batch: `case_id = batch_start + idx`;
a raised embedding exception propagates. -/
def embed_case_batch (embed : Text → Except Unit Vec) (batch_start : Nat) :
    Nat → List CaseRec → Except Unit (List CasePoint)
  | _, [] => .ok []
  | idx, c :: cs =>
    match embed (_create_case_content c) with
    | .error e => .error e
    | .ok v =>
      match embed_case_batch embed batch_start (idx + 1) cs with
      | .error e => .error e
      | .ok pts => .ok ({ id := batch_start + idx, vector := v,
                          payload := { case_title := c.case_title,
                                       division := c.division,
                                       law_category := c.law_category,
                                       law_act := c.law_act,
                                       reference := c.reference,
                                       case_details := c.case_details } } :: pts)

/-- The batch loop of `add_cases`: any raised exception reaches the outer
`except` and the call returns `False`, keeping the uploads already
performed. -/
def run_case_batches (embed : Text → Except Unit Vec)
    (upload : List CasePoint → Except Unit Unit) (cases_data : List CaseRec)
    (batch_size : Nat) : List Nat → Bool × List (List CasePoint)
  | [] => (true, [])
  | b :: rest =>
    match embed_case_batch embed b 0 ((cases_data.drop b).take batch_size) with
    | .error _ => (false, [])
    | .ok points =>
      match upload points with
      | .error _ => (false, [])
      | .ok _ =>
        let r := run_case_batches embed upload cases_data batch_size rest
        (r.1, points :: r.2)

/-- `CaseRAGPipeline.add_cases`: reads the file, clamps a negative
`start_index` to 0, returns success early when `start_index` is at or
beyond the record count, then processes batches. -/
def add_cases (read_file : Except Unit (List CaseRec))
    (embed : Text → Except Unit Vec) (upload : List CasePoint → Except Unit Unit)
    (batch_size : Nat) (start_index : Int) : Bool × List (List CasePoint) :=
  match read_file with
  | .error _ => (false, [])
  | .ok cases_data =>
    let si := norm_start start_index
    if cases_data.length ≤ si then (true, [])
    else if batch_size = 0 then (false, [])
    else run_case_batches embed upload cases_data batch_size
      (range_step si cases_data.length batch_size)

/-! ## Similarity search (`search_by_text` of both pipelines)

The Qdrant `query_points` call is an oracle returning scored points in an
arbitrary order (the raw index order); scores are modelled as integers,
only their ordering matters. -/

/-- A scored point as returned by the index for the case collection. -/
structure ScoredCasePoint where
  id : Nat
  score : Int
  payload : CasePayload
deriving DecidableEq, Repr

/-- One element of `CaseRAGPipeline.search_by_text`'s result list. -/
structure CaseSearchResult where
  payload : CasePayload
  score : Int
  id : Nat
deriving DecidableEq, Repr

/-- The `sorted(..., key=lambda x: x.score, reverse=True)` of the source:
Python's stable sort by descending score. -/
def sort_desc {α : Type} (score : α → Int) (l : List α) : List α :=
  l.mergeSort fun a b => decide (score b ≤ score a)

/-- `CaseRAGPipeline.search_by_text`: embed the query, query the index,
re-sort by descending score, return payload/score/id triples; any raised
exception is caught and the call returns the empty list. -/
def case_search_by_text (embed : Text → Except Unit Vec)
    (query_points : Vec → Nat → Except Unit (List ScoredCasePoint))
    (query : Text) (lim : Nat) : List CaseSearchResult :=
  match embed query with
  | .error _ => []
  | .ok qv =>
    match query_points qv lim with
    | .error _ => []
    | .ok raw =>
      (sort_desc (·.score) raw).map fun p =>
        { payload := p.payload, score := p.score, id := p.id }

/-- A law-collection payload as read back from the index: every field is
optional, matching the defensive `payload.get(key, default)` reads of the
source (legacy records may lack `chunk_content` and the other chunk
fields). -/
structure LawQPayload where
  part_section : Option Text
  law_text : Option Text
  chunk_content : Option Text
  chunk_index : Option Nat
  total_chunks : Option Nat
  is_chunked : Option Bool
deriving DecidableEq, Repr

/-- A scored point as returned by the index for the law collection. -/
structure ScoredLawPoint where
  id : Nat
  score : Int
  payload : LawQPayload
deriving DecidableEq, Repr

/-- The `metadata` sub-dictionary of a formatted law search result. -/
structure LawResultMeta where
  part_section : Text
  chunk_index : Nat
  total_chunks : Nat
  is_chunked : Bool
deriving DecidableEq, Repr

/-- One element of `LawRAGPipeline.search_by_text`'s result list. -/
structure LawSearchResult where
  type : Text
  content : Text
  metadata : LawResultMeta
  score : Int
  id : Nat
  payload : LawQPayload
deriving DecidableEq, Repr

/-- The per-point formatting of `LawRAGPipeline.search_by_text`:
`chunk_content = payload.get("chunk_content", "")`, falling back to
`payload.get("law_text", "")` when that is empty, and defensive defaults
for every metadata field. -/
def format_law_point (p : ScoredLawPoint) : LawSearchResult :=
  let chunk_content := p.payload.chunk_content.getD []
  let chunk_content := if chunk_content.isEmpty then p.payload.law_text.getD [] else chunk_content
  { type := str "law",
    content := chunk_content,
    metadata := { part_section := p.payload.part_section.getD [],
                  chunk_index := p.payload.chunk_index.getD 0,
                  total_chunks := p.payload.total_chunks.getD 1,
                  is_chunked := p.payload.is_chunked.getD false },
    score := p.score,
    id := p.id,
    payload := p.payload }

/-- `LawRAGPipeline.search_by_text`: embed the query, query the index,
re-sort by descending score, format each point; any raised exception is
caught and the call returns the empty list. -/
def law_search_by_text (embed : Text → Except Unit Vec)
    (query_points : Vec → Nat → Except Unit (List ScoredLawPoint))
    (query : Text) (lim : Nat) : List LawSearchResult :=
  match embed query with
  | .error _ => []
  | .ok qv =>
    match query_points qv lim with
    | .error _ => []
    | .ok raw => (sort_desc (·.score) raw).map format_law_point

/-! ## Retrieval orchestration (`graph.py`, `rag_node`) -/

/-- Python `str.strip()`: drop whitespace from both ends. -/
def py_strip (t : Text) : Text :=
  ((t.dropWhile Char.isWhitespace).reverse.dropWhile Char.isWhitespace).reverse

/-- Python's rendering of a bool inside an f-string. -/
def py_bool (b : Bool) : Text :=
  if b then str "True" else str "False"

/-- One entry of the merged `rag_context` list built by `rag_node`. -/
structure RagItem where
  type : Text
  content : Text
  score : Int
deriving DecidableEq, Repr

/-- The case-result context entry of `rag_node` (the triple-quoted
f-string of the source, with its 20-space indentation, then `.strip()`;
`result.get('score', 0)` is the result's score). -/
def format_case_context (r : CaseSearchResult) : RagItem :=
  { type := str "case",
    content := py_strip (str "\n                    Case Title: " ++ r.payload.case_title
      ++ str "\n                    Division: " ++ r.payload.division
      ++ str "\n                    Law Category: " ++ r.payload.law_category
      ++ str "\n                    Law Act: " ++ r.payload.law_act
      ++ str "\n                    Reference: " ++ r.payload.reference
      ++ str "\n                    Case Details: " ++ r.payload.case_details
      ++ str "\n                    "),
    score := r.score }

/-- The law-result context entry of `rag_node` (built from the raw payload
fields, with defensive defaults, not from the formatted `content`). -/
def format_law_context (r : LawSearchResult) : RagItem :=
  { type := str "law",
    content := py_strip (str "\n                    Part Section: " ++ r.payload.part_section.getD []
      ++ str "\n                    Law Text: " ++ r.payload.law_text.getD []
      ++ str "\n                    Is Chunked: " ++ py_bool (r.payload.is_chunked.getD false)
      ++ str "\n                    Chunk Index: " ++ str (toString (r.payload.chunk_index.getD 0))
      ++ str " of " ++ str (toString (r.payload.total_chunks.getD 1))
      ++ str "\n                    "),
    score := r.score }

/-- `rag_node` of `graph.py`: starting from an empty `rag_context`, each
enabled retrieval path appends its formatted results inside its own
`try/except`; an `Except.error` step models an exception raised anywhere
in that path (pipeline construction included) and contributes nothing. -/
def rag_node (is_case_rag is_law_rag : Bool)
    (case_step : Except Unit (List CaseSearchResult))
    (law_step : Except Unit (List LawSearchResult)) : List RagItem :=
  let ctx : List RagItem := []
  let ctx := if is_case_rag then
      match case_step with
      | .ok rs => ctx ++ rs.map format_case_context
      | .error _ => ctx
    else ctx
  let ctx := if is_law_rag then
      match law_step with
      | .ok rs => ctx ++ rs.map format_law_context
      | .error _ => ctx
    else ctx
  ctx

/-! ## Response generation (`custom_llm.py`, `agent.py`, `llm_node`) -/

/-- Outcome of the outbound `requests.post` call of
`CustomLLMAPI._agenerate`: an HTTP response (status code, raw text, and
the parsed body's `response` field), a socket timeout, a
`requests.exceptions.RequestException`, or any other exception. -/
inductive ApiOutcome where
  | http (status : Nat) (text : Text) (response_field : Text)
  | timeout
  | requestException (msg : Text)
  | otherError (msg : Text)
deriving DecidableEq, Repr

/-- `CustomLLMAPI._agenerate`: the generated message content for each
outcome of the HTTP call.  Every failure branch of the source is a
`try/except` arm returning a `ChatResult` whose message is an apology
string, so the function is total: no outcome propagates an exception. -/
def agenerate_content (outcome : ApiOutcome) : Text :=
  match outcome with
  | .http status text response_field =>
    if status = 200 then response_field
    else str "I apologize, but I encountered an API error: "
      ++ (str "Custom LLM API error " ++ str (toString status) ++ str ": " ++ text)
  | .timeout =>
    str "I apologize, but the request timed out: "
      ++ str "Custom LLM API request timed out (>5 minutes)"
  | .requestException msg =>
    str "I apologize, but I encountered a network error: "
      ++ (str "Custom LLM API network error: " ++ msg)
  | .otherError msg =>
    str "I apologize, but I encountered an unexpected error: "
      ++ (str "Custom LLM API unexpected error: " ++ msg)

/-- The backing model selected by `ChatAgent`. -/
inductive LLMBackend where
  | gemini
  | openai
  | custom
deriving DecidableEq, Repr

/-- `ChatAgent._initialize_llm`: `gemini` and `openai` are recognized; any
other id raises `ValueError(f"Unsupported model_id: ...")`, modelled as
`Except.error` carrying `str(e)`. -/
def _initialize_llm (model_id : Text) : Except Text LLMBackend :=
  if model_id = str "gemini" then .ok .gemini
  else if model_id = str "openai" then .ok .openai
  else .error (str "Unsupported model_id: " ++ model_id)

/-- `ChatAgent.__init__`: `custom_llm` selects the custom agent, every
other id goes through `_initialize_llm`. -/
def chat_agent_init (model_id : Text) : Except Text LLMBackend :=
  if model_id = str "custom_llm" then .ok .custom
  else _initialize_llm model_id

/-- `llm_node` of `graph.py`: construct the `ChatAgent` and generate; the
surrounding `try/except` turns any raised exception `e` into the response
`f"I apologize, but I encountered an error: str(e)"`.  After a successful
construction, `ChatAgent.generate_response` catches internally and always
returns text, so it is modelled as a total oracle. -/
def llm_node (model_id : Text) (generate : LLMBackend → Text) : Text :=
  match chat_agent_init model_id with
  | .ok agent => generate agent
  | .error e => str "I apologize, but I encountered an error: " ++ e

/-! ## Substring occurrence (used to state the apology-string claims) -/

/-- `needle` is a leading segment of `hay`. -/
def leads : Text → Text → Bool
  | a :: as, b :: bs => decide (a = b) && leads as bs
  | [], _ => true
  | _, _ => false

/-- `needle` occurs contiguously somewhere in `hay`. -/
def occurs_in (needle : Text) : Text → Bool
  | [] => leads needle []
  | c :: rest => leads needle (c :: rest) || occurs_in needle rest


/-! ### Chunker facts -/

theorem split_text_ne_nil (s : Text) : split_text s ≠ [] := by
  rw [split_text]
  split <;> simp

theorem split_text_length_ge_two (s : Text) (h : 1000 < s.length) :
    2 ≤ (split_text s).length := by
  rw [split_text, if_neg (by omega)]
  have := split_text_ne_nil (s.drop 900)
  have : 1 ≤ (split_text (s.drop 900)).length := by
    cases hh : split_text (s.drop 900) with
    | nil => exact absurd hh this
    | cons a l => simp
  simp only [List.length_cons]
  omega

theorem _create_law_chunks_ne_nil (r : LawRef) : _create_law_chunks r ≠ [] := by
  rw [_create_law_chunks]
  split
  · simp
  · simp only [ne_eq, List.map_eq_nil_iff, List.enum_eq_nil, List.length_eq_zero]
    exact split_text_ne_nil _

/-- C2: for every law record whose `law_text` is at most 1000 characters
long, `_create_law_chunks` returns exactly one chunk, whose `chunk_content`
is the whole `law_text`, with `chunk_index = 0` and `total_chunks = 1`. -/
theorem create_law_chunks_short (r : LawRef) (h : r.law_text.length ≤ 1000) :
    (_create_law_chunks r).length = 1 ∧
      ∀ c ∈ _create_law_chunks r,
        c.chunk_content = r.law_text ∧ c.chunk_index = 0 ∧ c.total_chunks = 1 := by
  rw [_create_law_chunks]
  simp only [if_pos h]
  refine ⟨rfl, ?_⟩
  intro c hc
  simp only [List.mem_singleton] at hc
  subst hc
  exact ⟨rfl, rfl, rfl⟩

/-- Witness for C2 at a concrete short record. -/
theorem create_law_chunks_short_witness :
    (str "short text").length ≤ 1000 ∧
      ((_create_law_chunks { part_section := str "s", law_text := str "short text" }).length = 1 ∧
        ∀ c ∈ _create_law_chunks { part_section := str "s", law_text := str "short text" },
          c.chunk_content = str "short text" ∧ c.chunk_index = 0 ∧ c.total_chunks = 1) :=
  ⟨by decide, create_law_chunks_short { part_section := str "s", law_text := str "short text" } (by decide)⟩

/-- C3: for every law record whose `law_text` is strictly longer than 1000
characters, `_create_law_chunks` returns more than one chunk, the chunk
ordinals are exactly `0 .. n-1` in order, and every chunk's `total_chunks`
field equals `n`, the length of the returned list. -/
theorem create_law_chunks_long (r : LawRef) (h : 1000 < r.law_text.length) :
    1 < (_create_law_chunks r).length ∧
      (_create_law_chunks r).map (·.chunk_index) = List.range (_create_law_chunks r).length ∧
      ∀ c ∈ _create_law_chunks r, c.total_chunks = (_create_law_chunks r).length := by
  rw [_create_law_chunks, if_neg (by omega)]
  have hlen : ((split_text r.law_text).enum.map
      (long_chunk r.part_section (split_text r.law_text).length)).length
      = (split_text r.law_text).length := by
    rw [List.length_map, List.enum_length]
  refine ⟨?_, ?_, ?_⟩
  · rw [hlen]
    exact split_text_length_ge_two _ h
  · rw [hlen, List.map_map]
    have hcomp : ((fun c : ChunkData => c.chunk_index)
        ∘ long_chunk r.part_section (split_text r.law_text).length) = Prod.fst := rfl
    rw [hcomp, List.enum_map_fst]
  · intro c hc
    rw [hlen]
    simp only [List.mem_map] at hc
    obtain ⟨ic, _, rfl⟩ := hc
    rfl

/-- Witness for C3 at a concrete 1001-character text. -/
theorem create_law_chunks_long_witness :
    1000 < (List.replicate 1001 'a' : Text).length ∧
      (1 < (_create_law_chunks { part_section := str "s", law_text := List.replicate 1001 'a' }).length ∧
        (_create_law_chunks { part_section := str "s", law_text := List.replicate 1001 'a' }).map (·.chunk_index)
          = List.range (_create_law_chunks { part_section := str "s", law_text := List.replicate 1001 'a' }).length ∧
        ∀ c ∈ _create_law_chunks { part_section := str "s", law_text := List.replicate 1001 'a' },
          c.total_chunks = (_create_law_chunks { part_section := str "s", law_text := List.replicate 1001 'a' }).length) :=
  ⟨by rw [List.length_replicate]; omega,
    create_law_chunks_long { part_section := str "s", law_text := List.replicate 1001 'a' }
      (by rw [List.length_replicate]; omega)⟩


theorem leads_append (n t : Text) : leads n (n ++ t) = true := by
  induction n with
  | nil => rfl
  | cons a as ih => simp [leads, ih]

theorem occurs_in_cons (n : Text) (c : Char) (l : Text) (h : occurs_in n l = true) :
    occurs_in n (c :: l) = true := by
  rw [occurs_in]
  cases n with
  | nil => rfl
  | cons a as => simp only [Bool.or_eq_true]; right; exact h

theorem occurs_in_self_append (n t : Text) : occurs_in n (n ++ t) = true := by
  cases n with
  | nil =>
    cases t with
    | nil => rfl
    | cons c r => rw [List.nil_append, occurs_in]; simp [leads]
  | cons a as =>
    rw [List.cons_append, occurs_in]
    simp only [Bool.or_eq_true]
    left
    exact leads_append (a :: as) t

theorem occurs_in_append_left (n p h : Text) (hh : occurs_in n h = true) :
    occurs_in n (p ++ h) = true := by
  induction p with
  | nil => simpa
  | cons c cs ih => exact occurs_in_cons _ _ _ ih

/-! ## `range_step` facts -/

theorem range_step_nil {start stop step : Nat} (h : stop ≤ start ∨ step = 0) :
    range_step start stop step = [] := by
  rcases h with h | h
  · rw [range_step]
    split
    · rename_i hs
      have hd : stop - start = 0 := by omega
      rw [hd, Nat.zero_add]
      have : (step - 1) / step = 0 := Nat.div_eq_of_lt (by omega)
      rw [this]
      rfl
    · rfl
  · rw [range_step, h, if_neg (by omega)]

theorem range_step_cons {start stop step : Nat} (hstep : 0 < step) (h : start < stop) :
    range_step start stop step = start :: range_step (start + step) stop step := by
  rw [range_step, range_step, if_pos hstep, if_pos hstep]
  have hcount : (stop - start + step - 1) / step
      = (stop - (start + step) + step - 1) / step + 1 := by
    rcases Nat.le_total stop (start + step) with hc | hc
    · have h1 : stop - (start + step) = 0 := by omega
      have h2 : stop - start + step - 1 = (stop - start - 1) + step := by omega
      rw [h1, h2, Nat.zero_add, Nat.add_div_right _ hstep]
      have : (stop - start - 1) / step = 0 := Nat.div_eq_of_lt (by omega)
      rw [this]
      have : (step - 1) / step = 0 := Nat.div_eq_of_lt (by omega)
      rw [this]
    · have h2 : stop - start + step - 1 = (stop - (start + step) + step - 1) + step := by
        omega
      rw [h2, Nat.add_div_right _ hstep]
  rw [hcount, List.range_succ_eq_map, List.map_cons, Nat.mul_zero, Nat.add_zero,
    List.map_map]
  congr 1
  apply List.map_congr_left
  intro i _
  simp only [Function.comp_apply, Nat.succ_eq_add_one, Nat.mul_add, Nat.mul_one]
  omega

theorem mem_range_step_ge {x start stop step : Nat} (h : x ∈ range_step start stop step) :
    start ≤ x := by
  rw [range_step] at h
  split at h
  · obtain ⟨i, _, rfl⟩ := List.mem_map.mp h
    omega
  · simp at h

theorem range_step_ne_nil {start stop step : Nat} (hstep : 0 < step) (h : start < stop) :
    range_step start stop step ≠ [] := by
  rw [range_step_cons hstep h]
  simp

/-! ## Batches partition the file -/

theorem law_batches_flatten (data : List LawRef) (bs : Nat) (hbs : 0 < bs) :
    ∀ s, ((range_step s data.length bs).map (law_batch data bs)).flatten = data.drop s := by
  have main : ∀ k s, data.length - s ≤ k →
      ((range_step s data.length bs).map (law_batch data bs)).flatten = data.drop s := by
    intro k
    induction k with
    | zero =>
      intro s hs
      have hle : data.length ≤ s := by omega
      rw [range_step_nil (Or.inl hle), List.map_nil, List.flatten_nil,
        List.drop_eq_nil_of_le hle]
    | succ k ih =>
      intro s hs
      by_cases h : s < data.length
      · rw [range_step_cons hbs h, List.map_cons, List.flatten_cons, ih (s + bs) (by omega)]
        have hdd : data.drop (s + bs) = (data.drop s).drop bs := by
          rw [List.drop_drop]
        rw [hdd, law_batch, List.take_append_drop]
      · have hle : data.length ≤ s := by omega
        rw [range_step_nil (Or.inl hle), List.map_nil, List.flatten_nil,
          List.drop_eq_nil_of_le hle]
  exact fun s => main data.length s (by omega)

theorem sum_over_batches (data : List LawRef) (bs : Nat) (hbs : 0 < bs) (f : LawRef → Nat) :
    ((range_step 0 data.length bs).map fun b => ((law_batch data bs b).map f).sum).sum
      = (data.map f).sum := by
  have h1 : ((range_step 0 data.length bs).map fun b => ((law_batch data bs b).map f).sum)
      = (((range_step 0 data.length bs).map (law_batch data bs)).map (List.map f)).map
          List.sum := by
    rw [List.map_map, List.map_map]
    rfl
  rw [h1, ← List.sum_flatten, ← List.map_flatten, law_batches_flatten data bs hbs 0,
    List.drop_zero]

/-! ## Skip-and-continue vs. abort (C1 machinery) -/

theorem embed_chunks_skip_spec (embed : Text → Except Unit Vec) (lt : Text) :
    ∀ (chunks : List ChunkData) (pid : Nat),
      (embed_chunks_skip embed lt pid chunks).2.2 = chunks.countP (chunk_fails embed) ∧
        (embed_chunks_skip embed lt pid chunks).1.length
          = chunks.countP fun cd => !chunk_fails embed cd := by
  intro chunks
  induction chunks with
  | nil => exact fun pid => ⟨rfl, rfl⟩
  | cons cd rest ih =>
    intro pid
    simp only [embed_chunks_skip]
    cases hcd : embed cd.content with
    | error e =>
      have hcf : chunk_fails embed cd = true := by rw [chunk_fails, hcd]
      refine ⟨?_, ?_⟩
      · simp [List.countP_cons, hcf, (ih pid).1]
      · simp [List.countP_cons, hcf, (ih pid).2]
    | ok v =>
      have hcf : chunk_fails embed cd = false := by rw [chunk_fails, hcd]
      refine ⟨?_, ?_⟩
      · simp [List.countP_cons, hcf, (ih (pid + 1)).1]
      · simp [List.countP_cons, hcf, (ih (pid + 1)).2]

theorem embed_law_batch_skip_spec (embed : Text → Except Unit Vec) :
    ∀ (rs : List LawRef) (pid : Nat),
      (embed_law_batch_skip embed pid rs).2.2 = (rs.map (record_fail_count embed)).sum ∧
        (embed_law_batch_skip embed pid rs).1.length
          = (rs.map (record_ok_count embed)).sum := by
  intro rs
  induction rs with
  | nil => exact fun pid => ⟨rfl, rfl⟩
  | cons r rest ih =>
    intro pid
    simp only [embed_law_batch_skip, List.map_cons, List.sum_cons, List.length_append]
    constructor
    · rw [(embed_chunks_skip_spec embed r.law_text (_create_law_chunks r) pid).1,
        (ih _).1, record_fail_count]
    · rw [(embed_chunks_skip_spec embed r.law_text (_create_law_chunks r) pid).2,
        (ih _).2, record_ok_count]

theorem run_law_batches_skip_spec (embed : Text → Except Unit Vec) (data : List LawRef)
    (bs spid : Nat) :
    ∀ bl : List Nat,
      (run_law_batches_skip embed (fun _ => .ok ()) data bs spid bl).1 = true ∧
        (run_law_batches_skip embed (fun _ => .ok ()) data bs spid bl).2.2.sum
          = (bl.map fun b => ((law_batch data bs b).map (record_fail_count embed)).sum).sum ∧
        ((run_law_batches_skip embed (fun _ => .ok ()) data bs spid bl).2.1.map
            List.length).sum
          = (bl.map fun b => ((law_batch data bs b).map (record_ok_count embed)).sum).sum := by
  intro bl
  induction bl with
  | nil => exact ⟨rfl, rfl, rfl⟩
  | cons b rest ih =>
    simp only [law_batch] at ih ⊢
    simp only [run_law_batches_skip, List.map_cons, List.sum_cons]
    have hc := embed_law_batch_skip_spec embed ((data.drop b).take bs) (spid + b)
    by_cases he : (embed_law_batch_skip embed (spid + b) ((data.drop b).take bs)).1.isEmpty
    · simp only [he, if_true, List.sum_cons]
      have hlen0 : (embed_law_batch_skip embed (spid + b) ((data.drop b).take bs)).1.length
          = 0 := by
        rw [List.isEmpty_iff] at he
        rw [he]
        rfl
      refine ⟨ih.1, ?_, ?_⟩
      · rw [ih.2.1, hc.1]
      · rw [ih.2.2, ← hc.2, hlen0, Nat.zero_add]
    · rw [Bool.not_eq_true] at he
      simp only [he, Bool.false_eq_true, if_false, List.map_cons, List.sum_cons]
      refine ⟨ih.1, ?_, ?_⟩
      · rw [ih.2.1, hc.1]
      · rw [ih.2.2, ← hc.2]

theorem embed_chunks_error_iff (embed : Text → Except Unit Vec) (lt : Text) :
    ∀ (chunks : List ChunkData) (pid : Nat),
      embed_chunks embed lt pid chunks = .error ()
        ↔ 0 < chunks.countP (chunk_fails embed) := by
  intro chunks
  induction chunks with
  | nil => intro pid; simp [embed_chunks]
  | cons cd rest ih =>
    intro pid
    simp only [embed_chunks]
    cases hcd : embed cd.content with
    | error e =>
      have hcf : chunk_fails embed cd = true := by rw [chunk_fails, hcd]
      simp [List.countP_cons, hcf]
    | ok v =>
      have hcf : chunk_fails embed cd = false := by rw [chunk_fails, hcd]
      cases hr : embed_chunks embed lt (pid + 1) rest with
      | error e' =>
        have : 0 < rest.countP (chunk_fails embed) := (ih (pid + 1)).mp (by rw [hr])
        simp [List.countP_cons, hcf, this]
      | ok pts =>
        have h0 : rest.countP (chunk_fails embed) = 0 := by
          by_contra hne
          have := (ih (pid + 1)).mpr (by omega)
          rw [hr] at this
          exact Except.noConfusion this
        simp [List.countP_cons, hcf, h0]

theorem embed_law_batch_error_iff (embed : Text → Except Unit Vec) :
    ∀ (rs : List LawRef) (pid : Nat),
      embed_law_batch embed pid rs = .error ()
        ↔ 0 < (rs.map (record_fail_count embed)).sum := by
  intro rs
  induction rs with
  | nil => intro pid; simp [embed_law_batch]
  | cons r rest ih =>
    intro pid
    simp only [embed_law_batch, List.map_cons, List.sum_cons]
    cases hc : embed_chunks embed r.law_text pid (_create_law_chunks r) with
    | error e =>
      cases e
      have : 0 < record_fail_count embed r := by
        rw [record_fail_count]
        exact (embed_chunks_error_iff embed r.law_text (_create_law_chunks r) pid).mp hc
      simp only [true_iff]
      omega
    | ok pts =>
      have h0 : record_fail_count embed r = 0 := by
        rw [record_fail_count]
        by_contra hne
        have := (embed_chunks_error_iff embed r.law_text (_create_law_chunks r) pid).mpr
          (by omega)
        rw [hc] at this
        exact Except.noConfusion this
      rw [h0, Nat.zero_add]
      cases hr : embed_law_batch embed (pid + (_create_law_chunks r).length) rest with
      | error e' =>
        cases e'
        have := (ih _).mp hr
        simp only [true_iff]
        omega
      | ok pts2 =>
        have hnot : ¬(0 < (rest.map (record_fail_count embed)).sum) := fun hpos => by
          have := (ih (pid + (_create_law_chunks r).length)).mpr hpos
          rw [hr] at this
          exact Except.noConfusion this
        simp only [Nat.not_lt] at hnot
        simp
        omega

theorem run_law_batches_success_iff (embed : Text → Except Unit Vec) (data : List LawRef)
    (bs : Nat) :
    ∀ bl : List Nat,
      (run_law_batches embed (fun _ => .ok ()) data bs bl).1 = true
        ↔ (bl.map fun b => ((law_batch data bs b).map (record_fail_count embed)).sum).sum
            = 0 := by
  intro bl
  induction bl with
  | nil => simp [run_law_batches]
  | cons b rest ih =>
    simp only [run_law_batches, List.map_cons, List.sum_cons]
    cases hc : embed_law_batch embed b ((data.drop b).take bs) with
    | error e =>
      cases e
      have : 0 < (((data.drop b).take bs).map (record_fail_count embed)).sum :=
        (embed_law_batch_error_iff embed _ b).mp hc
      rw [law_batch]
      simp only [Bool.false_eq_true, false_iff]
      omega
    | ok points =>
      have h0 : (((data.drop b).take bs).map (record_fail_count embed)).sum = 0 := by
        by_contra hne
        have := (embed_law_batch_error_iff embed ((data.drop b).take bs) b).mpr (by omega)
        rw [hc] at this
        exact Except.noConfusion this
      rw [law_batch, h0, Nat.zero_add]
      exact ih

/-! ## Sorting facts -/

theorem sort_desc_pairwise {α : Type} (score : α → Int) (l : List α) :
    (sort_desc score l).Pairwise fun a b => score b ≤ score a := by
  have htrans : ∀ a b c : α, decide (score b ≤ score a) = true →
      decide (score c ≤ score b) = true → decide (score c ≤ score a) = true := by
    intro a b c h1 h2
    rw [decide_eq_true_eq] at h1 h2 ⊢
    exact le_trans h2 h1
  have htotal : ∀ a b : α,
      (decide (score b ≤ score a) || decide (score a ≤ score b)) = true := by
    intro a b
    rcases le_total (score b) (score a) with h | h
    · rw [Bool.or_eq_true]
      exact Or.inl (decide_eq_true h)
    · rw [Bool.or_eq_true]
      exact Or.inr (decide_eq_true h)
  refine (@List.sorted_mergeSort α (fun a b : α => decide (score b ≤ score a))
    htrans htotal l).imp ?_
  intro a b hab
  exact of_decide_eq_true hab

/-- C4: for every query and limit, `search_by_text` of the case pipeline
and of the law pipeline each return a sequence that is non-increasing in
score, for every raw ordering the underlying index produces (every
`query_points` oracle). -/
theorem search_by_text_sorted (embedC : Text → Except Unit Vec)
    (qpC : Vec → Nat → Except Unit (List ScoredCasePoint))
    (embedL : Text → Except Unit Vec)
    (qpL : Vec → Nat → Except Unit (List ScoredLawPoint))
    (query : Text) (lim : Nat) :
    ((case_search_by_text embedC qpC query lim).Pairwise fun a b => b.score ≤ a.score) ∧
      ((law_search_by_text embedL qpL query lim).Pairwise fun a b => b.score ≤ a.score) := by
  constructor
  · rw [case_search_by_text]
    split
    · exact List.Pairwise.nil
    · split
      · exact List.Pairwise.nil
      · rename_i raw heq
        exact (sort_desc_pairwise (fun p : ScoredCasePoint => p.score) raw).map _ fun a b h => h
  · rw [law_search_by_text]
    split
    · exact List.Pairwise.nil
    · split
      · exact List.Pairwise.nil
      · rename_i raw heq
        exact (sort_desc_pairwise (fun p : ScoredLawPoint => p.score) raw).map _ fun a b h => h

/-- C5: with case RAG enabled and law RAG disabled, the merged retrieval
context holds only `case`-tagged entries in descending score order;
with both flags enabled it is all case results followed by all law
results, each block in descending score order; and a failing retrieval
path (an `Except.error` step) contributes nothing without suppressing the
other path. -/
theorem rag_node_merged (embedC : Text → Except Unit Vec)
    (qpC : Vec → Nat → Except Unit (List ScoredCasePoint))
    (embedL : Text → Except Unit Vec)
    (qpL : Vec → Nat → Except Unit (List ScoredLawPoint))
    (query : Text) (limC limL : Nat)
    (law_step : Except Unit (List LawSearchResult)) :
    (∀ it ∈ rag_node true false (.ok (case_search_by_text embedC qpC query limC)) law_step,
        it.type = str "case") ∧
      ((rag_node true false (.ok (case_search_by_text embedC qpC query limC)) law_step).Pairwise
        fun a b => b.score ≤ a.score) ∧
      rag_node true true (.ok (case_search_by_text embedC qpC query limC))
          (.ok (law_search_by_text embedL qpL query limL))
        = (case_search_by_text embedC qpC query limC).map format_case_context
          ++ (law_search_by_text embedL qpL query limL).map format_law_context ∧
      (((case_search_by_text embedC qpC query limC).map format_case_context).Pairwise
        fun a b => b.score ≤ a.score) ∧
      (((law_search_by_text embedL qpL query limL).map format_law_context).Pairwise
        fun a b => b.score ≤ a.score) ∧
      rag_node true true (.error ()) (.ok (law_search_by_text embedL qpL query limL))
        = (law_search_by_text embedL qpL query limL).map format_law_context ∧
      rag_node true true (.ok (case_search_by_text embedC qpC query limC)) (.error ())
        = (case_search_by_text embedC qpC query limC).map format_case_context := by
  have hc := (search_by_text_sorted embedC qpC embedL qpL query limC).1
  have hl := (search_by_text_sorted embedC qpC embedL qpL query limL).2
  have hcm : (((case_search_by_text embedC qpC query limC).map format_case_context).Pairwise
      fun a b => b.score ≤ a.score) := hc.map _ fun a b h => h
  have hlm : (((law_search_by_text embedL qpL query limL).map format_law_context).Pairwise
      fun a b => b.score ≤ a.score) := hl.map _ fun a b h => h
  refine ⟨?_, ?_, by simp [rag_node], hcm, hlm, by simp [rag_node], by simp [rag_node]⟩
  · intro it hit
    simp only [rag_node, if_true, if_false, List.nil_append] at hit
    obtain ⟨r, _, rfl⟩ := List.mem_map.mp hit
    rfl
  · simpa [rag_node] using hcm

/-- C6: a formatted law search result's `content` is the stored
`chunk_content` payload field when that field is present and non-empty,
and falls back to the `law_text` payload field when `chunk_content` is
absent or empty; and every hit returned by `search_by_text` obeys this
rule with respect to its own (preserved) payload. -/
theorem law_search_content (p : ScoredLawPoint) :
    (∀ c, p.payload.chunk_content = some c → c ≠ [] → (format_law_point p).content = c) ∧
      ((p.payload.chunk_content = none ∨ p.payload.chunk_content = some []) →
        (format_law_point p).content = p.payload.law_text.getD []) ∧
      ∀ (embed : Text → Except Unit Vec)
        (qp : Vec → Nat → Except Unit (List ScoredLawPoint)) (query : Text) (lim : Nat),
        ∀ hit ∈ law_search_by_text embed qp query lim,
          hit.content = if (hit.payload.chunk_content.getD []).isEmpty
            then hit.payload.law_text.getD [] else hit.payload.chunk_content.getD [] := by
  refine ⟨?_, ?_, ?_⟩
  · intro c hc hne
    simp [format_law_point, hc, List.isEmpty_iff, hne]
  · intro h
    rcases h with h | h <;> simp [format_law_point, h]
  · intro embed qp query lim hit hmem
    rw [law_search_by_text] at hmem
    split at hmem
    · simp at hmem
    · split at hmem
      · simp at hmem
      · obtain ⟨q, _, rfl⟩ := List.mem_map.mp hmem
        simp [format_law_point]

/-- Witness for C6: a point with non-empty stored chunk content keeps it
as `content`; a legacy point without `chunk_content` falls back to
`law_text`. -/
theorem law_search_content_witness :
    (format_law_point
        { id := 1,
          score := 3,
          payload := { part_section := some (str "s"),
                       law_text := some (str "full"),
                       chunk_content := some (str "chunk"),
                       chunk_index := some 0,
                       total_chunks := some 1,
                       is_chunked := some false } }).content = str "chunk" ∧
      (format_law_point
          { id := 2,
            score := 4,
            payload := { part_section := some (str "s"),
                         law_text := some (str "full"),
                         chunk_content := none,
                         chunk_index := none,
                         total_chunks := none,
                         is_chunked := none } }).content
        = (some (str "full")).getD [] :=
  ⟨(law_search_content _).1 (str "chunk") rfl (by decide),
    (law_search_content
      { id := 2,
        score := 4,
        payload := { part_section := some (str "s"),
                     law_text := some (str "full"),
                     chunk_content := none,
                     chunk_index := none,
                     total_chunks := none,
                     is_chunked := none } }).2.1 (Or.inl rfl)⟩

/-- C7: `add_cases` with `start_index` at or beyond the record count is a
success no-op performing zero uploads (every integer `≥ total` is
`total + n` for a natural `n`), and a negative `start_index` (every
negative integer is `-(k+1)`) behaves identically to `start_index = 0` --
same result, same batches, same assigned ids. -/
theorem add_cases_start_index (embed : Text → Except Unit Vec)
    (upload : List CasePoint → Except Unit Unit) (cases_data : List CaseRec)
    (batch_size : Nat) (n k : Nat) :
    add_cases (.ok cases_data) embed upload batch_size ((cases_data.length : Int) + n)
        = (true, []) ∧
      add_cases (.ok cases_data) embed upload batch_size (-(k + 1 : Int))
        = add_cases (.ok cases_data) embed upload batch_size 0 := by
  constructor
  · rw [add_cases]
    have h1 : norm_start ((cases_data.length : Int) + n) = cases_data.length + n := by
      rw [norm_start, if_neg (by omega)]
      omega
    rw [h1, if_pos (by omega)]
  · have h2 : norm_start (-(k + 1 : Int)) = norm_start 0 := by
      rw [norm_start, norm_start, if_pos (by omega), if_neg (by omega)]
      rfl
    rw [add_cases, add_cases, h2]

/-- C1 (amended): the skip-and-continue policy holds for the multi-file
worker `_add_law_file_with_custom_ids` -- for every embedding oracle
(hence any number of per-chunk failures), with the file read and uploads
succeeding, it reports success, its skipped counts total exactly the
failing chunks and it uploads exactly one point per successfully embedded
chunk -- while the single-file entry point `add_law_references` reports
success iff no chunk embedding fails at all: there a single failure aborts
the call. -/
theorem law_ingestion_skip_policy (embed : Text → Except Unit Vec) (data : List LawRef)
    (b spid : Nat) :
    (_add_law_file_with_custom_ids (.ok data) embed (fun _ => .ok ()) (b + 1) spid).1
        = true ∧
      (_add_law_file_with_custom_ids (.ok data) embed (fun _ => .ok ()) (b + 1) spid).2.2.sum
        = file_fail_count embed data ∧
      ((_add_law_file_with_custom_ids (.ok data) embed (fun _ => .ok ()) (b + 1) spid).2.1.map
          List.length).sum = file_ok_count embed data ∧
      ((add_law_references (.ok data) embed (fun _ => .ok ()) (b + 1) 0).1 = true
        ↔ file_fail_count embed data = 0) := by
  have hbs : 0 < b + 1 := Nat.succ_pos b
  have hw : _add_law_file_with_custom_ids (.ok data) embed (fun _ => .ok ()) (b + 1) spid
      = run_law_batches_skip embed (fun _ => .ok ()) data (b + 1) spid
          (range_step 0 data.length (b + 1)) := by
    rw [_add_law_file_with_custom_ids, if_neg (by omega)]
  have hs := run_law_batches_skip_spec embed data (b + 1) spid
    (range_step 0 data.length (b + 1))
  refine ⟨by rw [hw]; exact hs.1, ?_, ?_, ?_⟩
  · rw [hw, hs.2.1, sum_over_batches data (b + 1) hbs (record_fail_count embed),
      file_fail_count]
  · rw [hw, hs.2.2, sum_over_batches data (b + 1) hbs (record_ok_count embed),
      file_ok_count]
  · have hn : norm_start 0 = 0 := rfl
    rw [add_law_references, hn]
    by_cases hlen : data.length ≤ 0
    · have hdata : data = [] := List.length_eq_zero.mp (by omega)
      subst hdata
      simp [file_fail_count]
    · rw [if_neg hlen, if_neg (by omega)]
      rw [run_law_batches_success_iff embed data (b + 1)
        (range_step 0 data.length (b + 1)),
        sum_over_batches data (b + 1) hbs (record_fail_count embed), file_fail_count]

/-- C1 counterexample: in the single-file entry point `add_law_references`
a single record/chunk embedding failure does abort the batch -- with two
short records where only the second one's chunk content fails to embed,
the call returns `False` and uploads nothing, instead of skipping the
failing record and reporting success as the claim states. -/
theorem law_ingestion_skip_counterexample :
    add_law_references
        (.ok [{ part_section := str "s0", law_text := str "t0" },
              { part_section := str "s1", law_text := str "t1" }])
        (fun t => if t = str "Part Section: s1\nLaw Text: t1" then .error () else .ok [])
        (fun _ => .ok ()) 10 0
      = (false, []) := by decide

/-! ## Point-id arithmetic of `add_law_references` (C9 machinery) -/

theorem record_chunks_pos (r : LawRef) : 1 ≤ record_chunks r := by
  rw [record_chunks]
  exact List.length_pos.mpr (_create_law_chunks_ne_nil r)

theorem sum_ge_length (l : List Nat) (h : ∀ x ∈ l, 1 ≤ x) : l.length ≤ l.sum := by
  induction l with
  | nil => exact Nat.le_refl 0
  | cons a t ih =>
    have ha := h a (List.mem_cons_self a t)
    have ht := ih fun x hx => h x (List.mem_cons_of_mem a hx)
    simp only [List.length_cons, List.sum_cons]
    omega

theorem sum_gt_length_of_two (l : List Nat) (h : ∀ x ∈ l, 1 ≤ x) (y : Nat)
    (hy : y ∈ l) (h2 : 2 ≤ y) : l.length + 1 ≤ l.sum := by
  obtain ⟨l₁, l₂, rfl⟩ := List.append_of_mem hy
  have h₁ := sum_ge_length l₁ fun x hx => h x (List.mem_append_left _ hx)
  have h₂ := sum_ge_length l₂ fun x hx =>
    h x (List.mem_append_right _ (List.mem_cons_of_mem y hx))
  simp only [List.sum_append, List.sum_cons, List.length_append, List.length_cons]
  omega

theorem sum_eq_length_of_ones (l : List Nat) (h : ∀ x ∈ l, x = 1) : l.sum = l.length := by
  induction l with
  | nil => rfl
  | cons a t ih =>
    have ha := h a (List.mem_cons_self a t)
    have ht := ih fun x hx => h x (List.mem_cons_of_mem a hx)
    simp only [List.length_cons, List.sum_cons]
    omega

theorem mem_range_step_lt {x start stop step : Nat} (h : x ∈ range_step start stop step) :
    x < stop := by
  rw [range_step] at h
  split at h
  · rename_i hstep
    obtain ⟨i, hi, rfl⟩ := List.mem_map.mp h
    rw [List.mem_range] at hi
    have h1 : step * (i + 1) ≤ step * ((stop - start + step - 1) / step) :=
      Nat.mul_le_mul_left step hi
    have h2 : step * ((stop - start + step - 1) / step) ≤ stop - start + step - 1 := by
      rw [Nat.mul_comm]
      exact Nat.div_mul_le_self _ _
    have h3 : step * (i + 1) = step * i + step := by ring
    omega
  · simp at h

theorem law_batch_length (data : List LawRef) (bs b : Nat) :
    (law_batch data bs b).length = min bs (data.length - b) := by
  rw [law_batch, List.length_take, List.length_drop]

theorem batch_chunks_pos (data : List LawRef) (bs b : Nat) (hbs : 0 < bs)
    (hb : b < data.length) : 0 < batch_chunks data bs b := by
  rw [batch_chunks]
  have hlen : 0 < (law_batch data bs b).length := by
    rw [law_batch_length data bs b]
    omega
  have := sum_ge_length ((law_batch data bs b).map record_chunks) ?_
  · rw [List.length_map] at this
    omega
  · intro x hx
    obtain ⟨r, _, rfl⟩ := List.mem_map.mp hx
    exact record_chunks_pos r

theorem embed_chunks_ok_ids (ev : Text → Vec) (lt : Text) :
    ∀ (chunks : List ChunkData) (pid : Nat),
      ∃ pts, embed_chunks (fun t => .ok (ev t)) lt pid chunks = .ok pts ∧
        pts.map LawPoint.id = List.range' pid chunks.length := by
  intro chunks
  induction chunks with
  | nil => exact fun pid => ⟨[], rfl, rfl⟩
  | cons cd rest ih =>
    intro pid
    obtain ⟨pts, hpts, hids⟩ := ih (pid + 1)
    refine ⟨{ id := pid, vector := ev cd.content, payload := law_payload lt cd } :: pts,
      ?_, ?_⟩
    · simp only [embed_chunks, hpts]
    · rw [List.map_cons, hids, List.length_cons, List.range'_succ]

theorem embed_law_batch_ok_ids (ev : Text → Vec) :
    ∀ (rs : List LawRef) (pid : Nat),
      ∃ pts, embed_law_batch (fun t => .ok (ev t)) pid rs = .ok pts ∧
        pts.map LawPoint.id = List.range' pid (rs.map record_chunks).sum := by
  intro rs
  induction rs with
  | nil => exact fun pid => ⟨[], rfl, rfl⟩
  | cons r rest ih =>
    intro pid
    obtain ⟨pts, hpts, hids⟩ := embed_chunks_ok_ids ev r.law_text (_create_law_chunks r) pid
    obtain ⟨pts2, hpts2, hids2⟩ := ih (pid + (_create_law_chunks r).length)
    refine ⟨pts ++ pts2, ?_, ?_⟩
    · simp only [embed_law_batch, hpts, hpts2]
    · rw [List.map_append, hids, hids2, List.map_cons, List.sum_cons, record_chunks,
        List.range'_append_1, Nat.add_comm ((List.map record_chunks rest).sum)]

theorem run_law_batches_ok_ids (ev : Text → Vec) (data : List LawRef) (bs : Nat) :
    ∀ bl : List Nat,
      (run_law_batches (fun t => .ok (ev t)) (fun _ => .ok ()) data bs bl).1 = true ∧
        (run_law_batches (fun t => .ok (ev t)) (fun _ => .ok ()) data bs bl).2.map
            (List.map LawPoint.id)
          = bl.map fun b => List.range' b (batch_chunks data bs b) := by
  intro bl
  induction bl with
  | nil => exact ⟨rfl, rfl⟩
  | cons b rest ih =>
    obtain ⟨pts, hpts, hids⟩ := embed_law_batch_ok_ids ev ((data.drop b).take bs) b
    constructor
    · simp only [run_law_batches, hpts]
      exact ih.1
    · simp only [run_law_batches, hpts, List.map_cons]
      rw [hids, ih.2, batch_chunks, law_batch]

theorem nodup_ids_iff (data : List LawRef) (bs : Nat) (hbs : 0 < bs) :
    ∀ si : Nat,
      (((range_step si data.length bs).map fun b =>
          List.range' b (batch_chunks data bs b)).flatten).Nodup
        ↔ single_chunk_before_final data bs si := by
  have hflat_ge : ∀ t x, x ∈ ((range_step t data.length bs).map fun b =>
      List.range' b (batch_chunks data bs b)).flatten → t ≤ x := by
    intro t x hx
    obtain ⟨l, hl, hxl⟩ := List.mem_flatten.mp hx
    obtain ⟨b, hb, rfl⟩ := List.mem_map.mp hl
    have hge := mem_range_step_ge hb
    rw [List.mem_range'_1] at hxl
    omega
  have main : ∀ k si, data.length - si ≤ k →
      ((((range_step si data.length bs).map fun b =>
          List.range' b (batch_chunks data bs b)).flatten).Nodup
        ↔ single_chunk_before_final data bs si) := by
    intro k
    induction k with
    | zero =>
      intro si hk
      have hle : data.length ≤ si := by omega
      simp [single_chunk_before_final, range_step_nil (Or.inl hle)]
    | succ k ih =>
      intro si hk
      by_cases hsi : si < data.length
      · by_cases hfin : data.length ≤ si + bs
        · have hrest : range_step (si + bs) data.length bs = [] :=
            range_step_nil (Or.inl hfin)
          have hsc : single_chunk_before_final data bs si := by
            rw [single_chunk_before_final, range_step_cons hbs hsi, hrest]
            simp
          rw [range_step_cons hbs hsi, hrest]
          simp only [List.map_cons, List.map_nil, List.flatten_cons, List.flatten_nil,
            List.append_nil]
          exact iff_of_true (List.nodup_range' _ _) hsc
        · have hmid : si + bs < data.length := by omega
          have hrest_ne : range_step (si + bs) data.length bs ≠ [] :=
            range_step_ne_nil hbs hmid
          have hsc : single_chunk_before_final data bs si ↔
              ((∀ r ∈ law_batch data bs si, record_chunks r = 1) ∧
                single_chunk_before_final data bs (si + bs)) := by
            rw [single_chunk_before_final, single_chunk_before_final,
              range_step_cons hbs hsi, List.dropLast_cons_of_ne_nil hrest_ne]
            constructor
            · intro h
              exact ⟨h si (List.mem_cons_self _ _),
                fun b hb => h b (List.mem_cons_of_mem _ hb)⟩
            · rintro ⟨h1, h2⟩ b hb
              rcases List.mem_cons.mp hb with rfl | hb'
              · exact h1
              · exact h2 b hb'
          rw [range_step_cons hbs hsi, List.map_cons, List.flatten_cons,
            List.nodup_append, hsc]
          by_cases hone : ∀ r ∈ law_batch data bs si, record_chunks r = 1
          · have hm : batch_chunks data bs si = bs := by
              rw [batch_chunks, sum_eq_length_of_ones _ ?_, List.length_map,
                law_batch_length]
              · omega
              · intro x hx
                obtain ⟨r, hr, rfl⟩ := List.mem_map.mp hx
                exact hone r hr
            have hdisj : (List.range' si (batch_chunks data bs si)).Disjoint
                (((range_step (si + bs) data.length bs).map fun b =>
                  List.range' b (batch_chunks data bs b)).flatten) := by
              intro x hx1 hx2
              rw [hm, List.mem_range'_1] at hx1
              have := hflat_ge (si + bs) x hx2
              omega
            have hiff := ih (si + bs) (by omega)
            constructor
            · rintro ⟨_, h2, _⟩
              exact ⟨hone, hiff.mp h2⟩
            · rintro ⟨_, h2⟩
              exact ⟨List.nodup_range' _ _, hiff.mpr h2, hdisj⟩
          · push_neg at hone
            obtain ⟨r, hr, hrne⟩ := hone
            have hr2 : 2 ≤ record_chunks r := by
              have := record_chunks_pos r
              omega
            have hm : bs + 1 ≤ batch_chunks data bs si := by
              rw [batch_chunks]
              have hlen : (law_batch data bs si).length = bs := by
                rw [law_batch_length]
                omega
              have hsum := sum_gt_length_of_two ((law_batch data bs si).map record_chunks)
                ?_ (record_chunks r) (List.mem_map_of_mem record_chunks hr) hr2
              · rw [List.length_map, hlen] at hsum
                omega
              · intro x hx
                obtain ⟨r', _, rfl⟩ := List.mem_map.mp hx
                exact record_chunks_pos r'
            have hndisj : ¬ (List.range' si (batch_chunks data bs si)).Disjoint
                (((range_step (si + bs) data.length bs).map fun b =>
                  List.range' b (batch_chunks data bs b)).flatten) := by
              intro hdisj
              refine @hdisj (si + bs) ?_ ?_
              · rw [List.mem_range'_1]
                omega
              · apply List.mem_flatten.mpr
                refine ⟨List.range' (si + bs) (batch_chunks data bs (si + bs)), ?_, ?_⟩
                · apply List.mem_map_of_mem
                  rw [range_step_cons hbs hmid]
                  exact List.mem_cons_self _ _
                · rw [List.mem_range'_1]
                  have := batch_chunks_pos data bs (si + bs) hbs hmid
                  omega
            constructor
            · rintro ⟨_, _, hdisj⟩
              exact absurd hdisj hndisj
            · rintro ⟨h1, _⟩
              exact absurd (h1 r hr) hrne
      · have hle : data.length ≤ si := by omega
        simp [single_chunk_before_final, range_step_nil (Or.inl hle)]
  exact fun si => main data.length si (by omega)

/-- C9: in the single-file entry point `add_law_references` (run with an
always-succeeding embedding service and index client, batch size `b+1`),
the first point of every uploaded batch carries exactly the batch's record
start index as its id -- independent of how many chunks earlier batches
produced -- and the assigned point ids are pairwise distinct iff every
record of every batch before the final one yields exactly one chunk. -/
theorem add_law_references_point_ids (ev : Text → Vec) (data : List LawRef)
    (b : Nat) (start_index : Int) :
    (add_law_references (.ok data) (fun t => .ok (ev t)) (fun _ => .ok ()) (b + 1)
        start_index).1 = true ∧
      (add_law_references (.ok data) (fun t => .ok (ev t)) (fun _ => .ok ()) (b + 1)
          start_index).2.map (fun pts => pts.head?.map LawPoint.id)
        = (range_step (norm_start start_index) data.length (b + 1)).map some ∧
      ((((add_law_references (.ok data) (fun t => .ok (ev t)) (fun _ => .ok ()) (b + 1)
          start_index).2.flatten).map LawPoint.id).Nodup
        ↔ single_chunk_before_final data (b + 1) (norm_start start_index)) := by
  by_cases hsi : data.length ≤ norm_start start_index
  · have hnil : range_step (norm_start start_index) data.length (b + 1) = [] :=
      range_step_nil (Or.inl hsi)
    have hres : add_law_references (.ok data) (fun t => .ok (ev t)) (fun _ => .ok ())
        (b + 1) start_index = (true, []) := by
      simp only [add_law_references, if_pos hsi]
    rw [hres]
    refine ⟨rfl, by rw [hnil]; rfl, ?_⟩
    refine iff_of_true List.nodup_nil ?_
    rw [single_chunk_before_final, hnil]
    simp
  · have hres : add_law_references (.ok data) (fun t => .ok (ev t)) (fun _ => .ok ())
        (b + 1) start_index
        = run_law_batches (fun t => .ok (ev t)) (fun _ => .ok ()) data (b + 1)
            (range_step (norm_start start_index) data.length (b + 1)) := by
      simp only [add_law_references, if_neg hsi, if_neg (by omega : ¬(b + 1 = 0))]
    have hr := run_law_batches_ok_ids ev data (b + 1)
      (range_step (norm_start start_index) data.length (b + 1))
    rw [hres]
    refine ⟨hr.1, ?_, ?_⟩
    · have hswap : (run_law_batches (fun t => .ok (ev t)) (fun _ => .ok ()) data (b + 1)
          (range_step (norm_start start_index) data.length (b + 1))).2.map
            (fun pts => pts.head?.map LawPoint.id)
          = ((run_law_batches (fun t => .ok (ev t)) (fun _ => .ok ()) data (b + 1)
              (range_step (norm_start start_index) data.length (b + 1))).2.map
                (List.map LawPoint.id)).map List.head? := by
        rw [List.map_map]
        apply List.map_congr_left
        intro pts _
        rw [Function.comp_apply, List.head?_map]
      rw [hswap, hr.2, List.map_map]
      apply List.map_congr_left
      intro bb hbb
      have hlt : bb < data.length := mem_range_step_lt hbb
      have hpos : 0 < batch_chunks data (b + 1) bb :=
        batch_chunks_pos data (b + 1) bb (Nat.succ_pos b) hlt
      obtain ⟨m, hm⟩ : ∃ m, batch_chunks data (b + 1) bb = m + 1 :=
        ⟨batch_chunks data (b + 1) bb - 1, by omega⟩
      rw [Function.comp_apply, hm, List.range'_succ]
      rfl
    · rw [List.map_flatten, hr.2]
      exact nodup_ids_iff data (b + 1) (Nat.succ_pos b) (norm_start start_index)

/-- Two lists differ when they differ at some position. -/
theorem ne_of_get? {α : Type} {l₁ l₂ : List α} (n : Nat) (h : l₁[n]? ≠ l₂[n]?) :
    l₁ ≠ l₂ := fun he => h (by rw [he])

/-- C8: for the custom backend, a socket timeout never propagates:
`_agenerate` returns a plain string containing an apology and mentioning
the timeout; and the HTTP-error, timeout and network-exception outcomes
each produce their own distinct apology string (for every status code,
response text and exception message). -/
theorem agenerate_failure_strings (status : Nat) (text response_field msg : Text)
    (hs : status ≠ 200) :
    occurs_in (str "apolog") (agenerate_content .timeout) = true ∧
      occurs_in (str "timed out") (agenerate_content .timeout) = true ∧
      agenerate_content .timeout ≠ agenerate_content (.http status text response_field) ∧
      agenerate_content .timeout ≠ agenerate_content (.requestException msg) ∧
      agenerate_content (.http status text response_field)
        ≠ agenerate_content (.requestException msg) := by
  have hH : agenerate_content (.http status text response_field)
      = str "I apologize, but I encountered an API error: "
        ++ (str "Custom LLM API error " ++ str (toString status) ++ str ": " ++ text) := by
    rw [agenerate_content, if_neg hs]
  refine ⟨by decide, by decide, ?_, ?_, ?_⟩
  · apply ne_of_get? 17
    rw [hH, agenerate_content]
    rw [List.getElem?_append_left (by decide), List.getElem?_append_left (by decide)]
    decide
  · apply ne_of_get? 17
    rw [agenerate_content, agenerate_content]
    rw [List.getElem?_append_left (by decide), List.getElem?_append_left (by decide)]
    decide
  · apply ne_of_get? 32
    rw [hH, agenerate_content]
    rw [List.getElem?_append_left (by decide), List.getElem?_append_left (by decide)]
    decide

/-- Witness for C8 at status 500 and concrete texts. -/
theorem agenerate_failure_strings_witness :
    (500 : Nat) ≠ 200 ∧
      (occurs_in (str "apolog") (agenerate_content .timeout) = true ∧
        occurs_in (str "timed out") (agenerate_content .timeout) = true ∧
        agenerate_content .timeout
          ≠ agenerate_content (.http 500 (str "server error") (str "")) ∧
        agenerate_content .timeout ≠ agenerate_content (.requestException (str "conn refused")) ∧
        agenerate_content (.http 500 (str "server error") (str ""))
          ≠ agenerate_content (.requestException (str "conn refused"))) :=
  ⟨by decide, agenerate_failure_strings 500 (str "server error") (str "")
    (str "conn refused") (by decide)⟩

/-- C10: for every model id that is none of `gemini`, `openai`,
`custom_llm`, agent construction yields the `ValueError` message, which
`llm_node` catches and converts into a normal textual response containing
an apology and the error text -- the unknown-model case never escapes the
generation layer (the model of `llm_node` is total). -/
theorem llm_node_unknown_model (model_id : Text) (generate : LLMBackend → Text)
    (h1 : model_id ≠ str "gemini") (h2 : model_id ≠ str "openai")
    (h3 : model_id ≠ str "custom_llm") :
    llm_node model_id generate
        = str "I apologize, but I encountered an error: "
          ++ (str "Unsupported model_id: " ++ model_id) ∧
      occurs_in (str "apolog") (llm_node model_id generate) = true ∧
      occurs_in (str "Unsupported model_id") (llm_node model_id generate) = true := by
  have he : llm_node model_id generate
      = str "I apologize, but I encountered an error: "
        ++ (str "Unsupported model_id: " ++ model_id) := by
    rw [llm_node, chat_agent_init, if_neg h3, _initialize_llm, if_neg h1, if_neg h2]
  refine ⟨he, ?_, ?_⟩
  · rw [he]
    have hsplit : str "I apologize, but I encountered an error: "
        = str "I " ++ (str "apolog" ++ str "ize, but I encountered an error: ") := by decide
    rw [hsplit, List.append_assoc, List.append_assoc]
    exact occurs_in_append_left _ _ _ (occurs_in_self_append _ _)
  · rw [he]
    have hsplit : str "Unsupported model_id: " ++ model_id
        = str "Unsupported model_id" ++ (str ": " ++ model_id) := by
      rw [← List.append_assoc]
      rfl
    rw [hsplit]
    exact occurs_in_append_left _ _ _ (occurs_in_self_append _ _)

/-- Witness for C10 at the unknown model id `claude`. -/
theorem llm_node_unknown_model_witness :
    str "claude" ≠ str "gemini" ∧ str "claude" ≠ str "openai" ∧ str "claude" ≠ str "custom_llm" ∧
      (llm_node (str "claude") (fun _ => [])
          = str "I apologize, but I encountered an error: "
            ++ (str "Unsupported model_id: " ++ str "claude") ∧
        occurs_in (str "apolog") (llm_node (str "claude") (fun _ => [])) = true ∧
        occurs_in (str "Unsupported model_id") (llm_node (str "claude") (fun _ => [])) = true) :=
  ⟨by decide, by decide, by decide,
    llm_node_unknown_model (str "claude") (fun _ => []) (by decide) (by decide) (by decide)⟩

end Lawgpt
